import Mathlib

/-!
Verification development for the Overleaf MCP server
(`src/overleaf_mcp/server.py`).

Documents are modelled as `List Char` (one entry per character of the
Python `str`; all byte-offset talk in the spec becomes character offsets,
which agree on the ASCII documents at issue).  The LaTeX heading regex
`\\(part|chapter|section|subsection|subsubsection|paragraph|subparagraph)\*?\x7b([^\x7d]+)\x7d`
is embedded as an executable matcher: the alternation of keywords is
prefix-free, so Python's ordered-alternation backtracking never changes
the outcome and a first-prefix scan is faithful.  `re.finditer` is the
usual non-overlapping left-to-right scan, embedded with explicit fuel so
that every definition evaluates by `decide`/`rfl`.
-/

namespace OverleafMCP

/-- Backslash character. -/
def bslash : Char := Char.ofNat 92

/-- Star character. -/
def star : Char := Char.ofNat 42

/-- Opening brace character. -/
def lbrace : Char := Char.ofNat 123

/-- Closing brace character. -/
def rbrace : Char := Char.ofNat 125

/-- Whitespace characters stripped by Python `str.strip()` (ASCII range). -/
def isPySpace (c : Char) : Bool :=
  c = ' ' || c = '\t' || c = '\n' || c = '\r' || c = Char.ofNat 11 || c = Char.ofNat 12

/-- Python `s.strip()`: remove leading and trailing whitespace. -/
def pyStrip (cs : List Char) : List Char :=
  (((cs.dropWhile isPySpace).reverse).dropWhile isPySpace).reverse

/-- Python slice `s[a:b]` (for `a ≤ b`; clamps like Python). -/
def pySlice (cs : List Char) (a b : Nat) : List Char :=
  (cs.drop a).take (b - a)

/-- Python `str.lower()` restricted to ASCII (titles in scope are ASCII). -/
def lowerList (cs : List Char) : List Char :=
  cs.map Char.toLower

/-- The keyword alternation of `SECTION_PATTERN`, in Python's alternation
order (`part|chapter|section|subsection|subsubsection|paragraph|subparagraph`). -/
def SECTION_KEYWORDS : List String :=
  ["part", "chapter", "section", "subsection", "subsubsection", "paragraph", "subparagraph"]

/-- One `re.Match` of `SECTION_PATTERN`: span `[start, stop)`, group 1
(`kind`), group 2 (`title`), and whether the starred variant matched. -/
structure SecMatch where
  start : Nat
  stop : Nat
  kind : String
  title : List Char
  starred : Bool
deriving DecidableEq, Repr

/-- The literal character sequence a heading match consumes:
backslash, keyword, optional star, `\x7b`, title, `\x7d`. -/
def headerPat (kind : String) (title : List Char) (starred : Bool) : List Char :=
  bslash :: (kind.toList ++ (if starred then [star] else []) ++ (lbrace :: (title ++ [rbrace])))

/-- The characters consumed by a match. -/
def headerChars (m : SecMatch) : List Char :=
  headerPat m.kind m.title m.starred

/-- Attempt to match `SECTION_PATTERN` at position `i` of the document:
a backslash, one keyword of the (prefix-free) alternation, an optional
star, then a braced nonempty title containing no closing brace. -/
def matchAt (cs : List Char) (i : Nat) : Option SecMatch :=
  match cs.drop i with
  | [] => none
  | c :: rest =>
    if c = bslash then
      match SECTION_KEYWORDS.find? (fun w => w.toList.isPrefixOf rest) with
      | none => none
      | some w =>
        let afterKw := rest.drop w.length
        match afterKw with
        | [] => none
        | d :: tl0 =>
          let starred := d = star
          let afterStar := if starred then tl0 else afterKw
          match afterStar with
          | [] => none
          | b :: tl =>
            if b = lbrace then
              let title := tl.takeWhile (fun ch => ch ≠ rbrace)
              let rest2 := tl.dropWhile (fun ch => ch ≠ rbrace)
              if title.isEmpty || rest2.isEmpty then none
              else
                some ⟨i, i + w.length + (if starred then 1 else 0) + title.length + 3,
                      w, title, starred⟩
            else none
    else none

/-- `re.finditer` scan: try each position left to right, emit
non-overlapping matches, continue after each match.  `fuel` bounds the
number of steps (callers pass `cs.length + 1`, which always suffices). -/
def findIterAux (cs : List Char) : Nat → Nat → List SecMatch
  | 0, _ => []
  | fuel + 1, i =>
    if i < cs.length then
      match matchAt cs i with
      | some m => m :: findIterAux cs fuel (max m.stop (i + 1))
      | none => findIterAux cs fuel (i + 1)
    else []

/-- All matches of `SECTION_PATTERN` over the document, in document order. -/
def findIter (cs : List Char) : List SecMatch :=
  findIterAux cs (cs.length + 1) 0

/-- One entry of the list returned by `parse_sections` (the dict with keys
`type`, `title`, `preview`, `start_pos`, `end_pos`). -/
structure Section where
  type : String
  title : List Char
  preview : List Char
  start_pos : Nat
  end_pos : Nat
deriving DecidableEq, Repr

/-- The `end_pos` of a section: start of the next match, or document length. -/
def sectionEnd (cs : List Char) : List SecMatch → Nat
  | [] => cs.length
  | m2 :: _ => m2.start

/-- `preview`: stripped content from header end to section end, truncated
to 200 characters with a trailing ellipsis if longer. -/
def previewOf (cs : List Char) (m : SecMatch) (e : Nat) : List Char :=
  let sc := pyStrip (pySlice cs m.stop e)
  if 200 < sc.length then sc.take 200 ++ "...".toList else sc

/-- Fold the match list into the section dicts exactly as the Python loop
does (`end_pos` = next match's start, or `len(content)` for the last). -/
def buildSections (cs : List Char) : List SecMatch → List Section
  | [] => []
  | m :: rest =>
    ⟨m.kind, m.title, previewOf cs m (sectionEnd cs rest), m.start, sectionEnd cs rest⟩
      :: buildSections cs rest

/-- `parse_sections` (server.py lines 159-186). -/
def parse_sections (cs : List Char) : List Section :=
  buildSections cs (findIter cs)

/-- `get_section_by_title` (server.py lines 189-197): first section whose
title matches case-insensitively; returns `content[start_pos:end_pos]`. -/
def get_section_by_title (content : List Char) (title : List Char) : Option (List Char) :=
  match (parse_sections content).find? (fun s => lowerList s.title = lowerList title) with
  | some s => some (pySlice content s.start_pos s.end_pos)
  | none => none

/-- The header re-match of `update_section` at one position: the pattern
`rf"\\\x7bkind\x7d\*?\\\x7b\x7bre.escape(title)\x7d\\\x7d\x7d"` matches at `i` iff the starred or
unstarred literal header text starts there (greedy `\*?`; the two cannot
both match).  Returns the match end. -/
def matchHeaderAt (cs : List Char) (kind : String) (title : List Char) (i : Nat) : Option Nat :=
  if (headerPat kind title true).isPrefixOf (cs.drop i) then
    some (i + (headerPat kind title true).length)
  else if (headerPat kind title false).isPrefixOf (cs.drop i) then
    some (i + (headerPat kind title false).length)
  else none

/-- `re.search` scan for the header pattern: first position (left to
right) where it matches; returns `(start, end)` of the match. -/
def headerSearchAux (cs : List Char) (kind : String) (title : List Char) :
    Nat → Nat → Option (Nat × Nat)
  | 0, _ => none
  | fuel + 1, i =>
    match matchHeaderAt cs kind title i with
    | some e => some (i, e)
    | none => headerSearchAux cs kind title fuel (i + 1)

/-- `re.search` of the update-section header pattern over the whole document. -/
def headerSearch (cs : List Char) (kind : String) (title : List Char) : Option (Nat × Nat) :=
  headerSearchAux cs kind title (cs.length + 1) 0

/-- Render a title back to a string for error messages. -/
def titleStr (t : List Char) : String := String.mk t

/-- The `Available sections: ...` fragment used in error messages. -/
def availableTitles (sections : List Section) : String :=
  String.intercalate ", " (sections.map (fun s => "\x27" ++ titleStr s.title ++ "\x27"))

/-- The document-rewrite core of the `update_section` branch of
`execute_tool` (server.py lines 816-845): parse, find the first
case-insensitive title match, re-search the kind/title header pattern over
the whole document for `header_end`, and splice
`content[:header_end] + "\n" + new_content.strip() + "\n" + content[end_pos:]`.
Errors are the strings the tool returns for the two failure branches. -/
def update_section_text (content : List Char) (section_title : String)
    (new_content : String) : Except String (List Char) :=
  let sections := parse_sections content
  match sections.find? (fun s => lowerList s.title = lowerList section_title.toList) with
  | none =>
    .error ("Section \x27" ++ section_title ++ "\x27 not found. Available sections: "
            ++ availableTitles sections)
  | some sec =>
    match headerSearch content sec.type sec.title with
    | none => .error ("Could not locate section header for \x27" ++ section_title ++ "\x27")
    | some (_, header_end) =>
      .ok (content.take header_end
            ++ '\n' :: (pyStrip new_content.toList ++ '\n' :: content.drop sec.end_pos))

/-!
Path Resolver (`validate_path`, server.py lines 151-156).

Paths are modelled as lists of segments of an absolute POSIX path (the
mirror root `base_path` is given already resolved; symlinks are not
modelled).  `Path` joining drops empty and `.` segments and keeps `..`;
`.resolve()` processes `..` segments; the string comparison
`str(resolved).startswith(str(base_path.resolve()))` is modelled on the
character rendering of the segment list.
-/

/-- `str.split("/")`-style splitting into components (executable model
of the string splitting used to read a path's segments). -/
def splitSlashAux : List Char → List Char → List String
  | [], acc => [String.mk acc.reverse]
  | c :: rest, acc =>
    if c = '/' then String.mk acc.reverse :: splitSlashAux rest []
    else splitSlashAux rest (c :: acc)

/-- Split a path string on slashes. -/
def pySplitSlash (s : String) : List String := splitSlashAux s.toList []

/-- `str.startswith(pre)`. -/
def pyStartsWith (s pre : String) : Bool := pre.toList.isPrefixOf s.toList

/-- `base_path / target_path`: an absolute right operand replaces the
base; otherwise its segments are appended.  Empty and `.` segments
disappear at `Path` construction, `..` segments are kept. -/
def joinPath (base : List String) (target : String) : List String :=
  let parts := (pySplitSlash target).filter (fun p => p ≠ "" && p ≠ ".")
  if pyStartsWith target "/" then parts else base ++ parts

/-- `Path.resolve()` on segments: apply `..` by dropping the previous
segment (staying at the root when there is none). -/
def resolveSegs (segs : List String) : List String :=
  segs.foldl (fun acc s => if s = ".." then acc.dropLast else acc ++ [s]) []

/-- `str(path)` for an absolute path with the given segments: each
segment is preceded by a slash. -/
def renderPath (segs : List String) : List Char :=
  segs.foldl (fun acc s => acc ++ '/' :: s.toList) []

/-- `validate_path` (server.py lines 151-156): resolve the joined path
and require the root's rendering to be a string prefix of its rendering;
return the resolved path on success. -/
def validate_path (base : List String) (target : String) : Option (List String) :=
  let resolved := resolveSegs (joinPath base target)
  if (renderPath (resolveSegs base)).isPrefixOf (renderPath resolved) then some resolved
  else none

/-!
Mutation pipeline (`execute_tool` branches for `create_file`,
`edit_file`, `update_section`, `delete_file`, and the `call_tool`
wrapper, server.py lines 526-533, 577-610, 769-798, 800-861, 889-915).

The mirror working tree is a map from resolved path segments to file
contents; a git commit is recorded as message plus staged paths.  The
network steps are the environment: `ensure_repo`'s best-effort pull is
outside the modelled state, and the outcome of `repo.remotes.origin.push()`
is the `pushOk` flag (`pushOk = false` makes it raise `pushErr`, the
`GitCommandError` text).  A raised exception propagates to `call_tool`,
which renders it as `"Error: " ++ e` with whatever state the partial
execution left behind.
-/

/-- A recorded git commit: message and the staged paths. -/
structure Commit where
  message : String
  paths : List String
deriving DecidableEq, Repr

/-- The on-disk mirror: files (by resolved path segments) and the commit log. -/
structure RepoState where
  files : List (List String × List Char)
  commits : List Commit
deriving DecidableEq, Repr

/-- Result of one `execute_tool` run: a returned string, or a raised
exception carried to `call_tool`. -/
inductive ToolOutcome where
  | ok : String → ToolOutcome
  | raised : String → ToolOutcome
deriving DecidableEq, Repr

/-- `call_tool` (server.py lines 526-533): catch any exception and turn
it into an `"Error: ..."` text result. -/
def call_tool : RepoState × ToolOutcome → RepoState × String
  | (st, ToolOutcome.ok m) => (st, m)
  | (st, ToolOutcome.raised e) => (st, "Error: " ++ e)

/-- `target_path.exists()` / `read_text()`: look a file up by resolved path. -/
def lookupFile (files : List (List String × List Char)) (key : List String) :
    Option (List Char) :=
  match files.find? (fun kv => kv.1 = key) with
  | some kv => some kv.2
  | none => none

/-- `target_path.write_text(content)`: overwrite or create. -/
def setFile : List (List String × List Char) → List String → List Char →
    List (List String × List Char)
  | [], k, v => [(k, v)]
  | kv :: rest, k, v => if kv.1 = k then (k, v) :: rest else kv :: setFile rest k v

/-- `target_path.unlink()`: remove a file. -/
def removeFile (files : List (List String × List Char)) (k : List String) :
    List (List String × List Char) :=
  files.filter (fun kv => kv.1 ≠ k)

/-- The `create_file` branch of `execute_tool` (server.py lines 577-610). -/
def create_file (base : List String) (st : RepoState) (file_path : String)
    (content : List Char) (commit_message : Option String) (push pushOk : Bool)
    (pushErr : String) : RepoState × ToolOutcome :=
  let msg := commit_message.getD ("Add " ++ file_path)
  match validate_path base file_path with
  | none => (st, ToolOutcome.raised ("Path \x27" ++ file_path ++ "\x27 escapes repository root"))
  | some target =>
    if (lookupFile st.files target).isSome then
      (st, ToolOutcome.ok ("Error: File \x27" ++ file_path
            ++ "\x27 already exists. Use edit_file to modify it."))
    else
      let st2 : RepoState := ⟨setFile st.files target content, st.commits ++ [⟨msg, [file_path]⟩]⟩
      if push then
        if pushOk then (st2, ToolOutcome.ok ("Created and pushed \x27" ++ file_path ++ "\x27"))
        else (st2, ToolOutcome.raised pushErr)
      else
        (st2, ToolOutcome.ok ("Created \x27" ++ file_path
              ++ "\x27 (not pushed). Run sync_project or use push=true to push changes."))

/-- The `edit_file` branch of `execute_tool` (server.py lines 769-798). -/
def edit_file (base : List String) (st : RepoState) (file_path : String)
    (content : List Char) (commit_message : Option String) (push pushOk : Bool)
    (pushErr : String) : RepoState × ToolOutcome :=
  let msg := commit_message.getD ("Update " ++ file_path)
  match validate_path base file_path with
  | none => (st, ToolOutcome.raised ("Path \x27" ++ file_path ++ "\x27 escapes repository root"))
  | some target =>
    if (lookupFile st.files target).isSome then
      let st2 : RepoState := ⟨setFile st.files target content, st.commits ++ [⟨msg, [file_path]⟩]⟩
      if push then
        if pushOk then (st2, ToolOutcome.ok ("Updated and pushed \x27" ++ file_path ++ "\x27"))
        else (st2, ToolOutcome.raised pushErr)
      else
        (st2, ToolOutcome.ok ("Updated \x27" ++ file_path
              ++ "\x27 (not pushed). Run sync_project or use push=true to push changes."))
    else
      (st, ToolOutcome.ok ("Error: File \x27" ++ file_path
            ++ "\x27 not found. Use create_file to create it."))

/-- The `update_section` branch of `execute_tool` (server.py lines 800-861). -/
def update_section_tool (base : List String) (st : RepoState) (file_path : String)
    (section_title new_content : String) (commit_message : Option String)
    (push pushOk : Bool) (pushErr : String) : RepoState × ToolOutcome :=
  let msg := commit_message.getD ("Update section \x27" ++ section_title ++ "\x27")
  match validate_path base file_path with
  | none => (st, ToolOutcome.raised ("Path \x27" ++ file_path ++ "\x27 escapes repository root"))
  | some target =>
    match lookupFile st.files target with
    | none => (st, ToolOutcome.ok ("Error: File \x27" ++ file_path ++ "\x27 not found"))
    | some content =>
      match update_section_text content section_title new_content with
      | Except.error e => (st, ToolOutcome.ok e)
      | Except.ok newDoc =>
        let st2 : RepoState := ⟨setFile st.files target newDoc, st.commits ++ [⟨msg, [file_path]⟩]⟩
        if push then
          if pushOk then
            (st2, ToolOutcome.ok ("Updated section \x27" ++ section_title ++ "\x27 and pushed"))
          else (st2, ToolOutcome.raised pushErr)
        else (st2, ToolOutcome.ok ("Updated section \x27" ++ section_title ++ "\x27 (not pushed)"))

/-- The `delete_file` branch of `execute_tool` (server.py lines 889-915). -/
def delete_file (base : List String) (st : RepoState) (file_path : String)
    (commit_message : Option String) (push pushOk : Bool) (pushErr : String) :
    RepoState × ToolOutcome :=
  let msg := commit_message.getD ("Delete " ++ file_path)
  match validate_path base file_path with
  | none => (st, ToolOutcome.raised ("Path \x27" ++ file_path ++ "\x27 escapes repository root"))
  | some target =>
    if (lookupFile st.files target).isSome then
      let st2 : RepoState := ⟨removeFile st.files target, st.commits ++ [⟨msg, [file_path]⟩]⟩
      if push then
        if pushOk then (st2, ToolOutcome.ok ("Deleted and pushed \x27" ++ file_path ++ "\x27"))
        else (st2, ToolOutcome.raised pushErr)
      else (st2, ToolOutcome.ok ("Deleted \x27" ++ file_path ++ "\x27 (not pushed)"))
    else (st, ToolOutcome.ok ("Error: File \x27" ++ file_path ++ "\x27 not found"))

/-!
Project Registry (`get_project_config`, server.py lines 105-122).
`config.projects` is an insertion-ordered dict, modelled as an
association list with distinct keys in insertion order; `next(iter(...))`
is its first key.  Python's `config.default_project or ...` treats both
`None` and the empty string as absent.
-/

/-- `ProjectConfig` (server.py lines 52-57). -/
structure ProjectConfig where
  name : String
  project_id : String
  git_token : String
deriving DecidableEq, Repr

/-- `Config` (server.py lines 59-63). -/
structure Config where
  projects : List (String × ProjectConfig)
  default_project : Option String
deriving DecidableEq, Repr

/-- The message raised when no projects are configured. -/
def noProjectsMsg : String :=
  "No projects configured. Create overleaf_config.json or set OVERLEAF_PROJECT_ID and OVERLEAF_GIT_TOKEN environment variables."

/-- `get_project_config` (server.py lines 105-122). -/
def get_project_config (config : Config) (project_name : Option String) :
    Except String ProjectConfig :=
  match config.projects with
  | [] => Except.error noProjectsMsg
  | p0 :: _ =>
    let pname :=
      match project_name with
      | some n => n
      | none =>
        match config.default_project with
        | some d => if d = "" then p0.1 else d
        | none => p0.1
    match config.projects.find? (fun q => q.1 = pname) with
    | some q => Except.ok q.2
    | none =>
      Except.error ("Project \x27" ++ pname ++ "\x27 not found. Available: "
        ++ String.intercalate ", " (config.projects.map (fun q => q.1)))

/-!
`list_files` branch of `execute_tool` (server.py lines 640-659).
The mirror tree is the list of files as relative-path component lists;
`rglob` enumerates them (directories are dropped by `is_file()`).  The
hidden-file check inspects the components of the full path, i.e. the
root's components followed by the relative components.
-/

/-- `pathlib`'s `Path.suffix` of a file name: from the last dot, when
that dot is neither the first nor the last character. -/
def pySuffix (name : List Char) : List Char :=
  match name.reverse.findIdx? (fun c => c = '.') with
  | none => []
  | some k =>
    let i := name.length - 1 - k
    if 0 < i ∧ i < name.length - 1 then name.drop i else []

/-- `str(rel_path)` with POSIX separators. -/
def renderRel (rel : List String) : String := String.intercalate "/" rel

/-- `path.name`: the last component. -/
def lastComponent (rel : List String) : String := (rel.getLast?).getD ""

/-- `any(part.startswith(".") for part in parts)`. -/
def hasHiddenPart (parts : List String) : Bool :=
  parts.any (fun p => pyStartsWith p ".")

/-- The `list_files` branch of `execute_tool` (server.py lines 640-659):
keep files none of whose full-path components is dotted, filter by
`path.suffix == extension` when an extension is given, render relative
paths and sort. -/
def list_files (rootParts : List String) (tree : List (List String))
    (extension : String) : List String :=
  List.insertionSort (fun a b => a ≤ b)
    ((tree.filter (fun rel =>
        !(hasHiddenPart (rootParts ++ rel))
          && (extension == "" || String.mk (pySuffix (lastComponent rel).toList) == extension))).map
      renderRel)

/-! Concrete documents, states and configurations used by the witnesses
and counterexamples below. -/

deriving instance DecidableEq for Except

/-- The spec's scenario document. -/
def demoDoc : List Char :=
  "\\section\x7bIntro\x7d\nHello\n\\section\x7bMethods\x7d\nWorld\n".toList

/-- First section of `demoDoc` as parsed. -/
def demoSec0 : Section := ⟨"section", "Intro".toList, "Hello".toList, 0, 22⟩

/-- Second section of `demoDoc` as parsed. -/
def demoSec1 : Section := ⟨"section", "Methods".toList, "World".toList, 22, 46⟩

/-- The match backing `demoSec0`. -/
def demoM0 : SecMatch := ⟨0, 15, "section", "Intro".toList, false⟩

/-- An adversarial document whose first heading's title contains the
text of a later heading. -/
def advDoc : List Char :=
  "\\paragraph\x7bB \\section\x7bA\x7d\x7d\nX\n\\section\x7bA\x7d\nBody\n".toList

/-- The section titled `A` in `advDoc` as parsed. -/
def advSection : Section := ⟨"section", "A".toList, "Body".toList, 28, 45⟩

/-- Mirror root used in concrete path scenarios. -/
def demoBase : List String := ["home", "u", "cache", "proj"]

/-- Resolved path of `main.tex` under the demo root. -/
def demoTarget : List String := ["home", "u", "cache", "proj", "main.tex"]

/-- A mirror state with one tracked file, used in concrete scenarios. -/
def demoState : RepoState :=
  ⟨[(["home", "u", "cache", "proj", "main.tex"], "old".toList)], []⟩

/-- The scenario document after updating section `Intro` with `Goodbye`. -/
def updatedDemo : List Char :=
  "\\section\x7bIntro\x7d\nGoodbye\n\\section\x7bMethods\x7d\nWorld\n".toList

/-- A mirror state holding the scenario document in `main.tex`. -/
def texState : RepoState := ⟨[(demoTarget, demoDoc)], []⟩

/-- Empty configuration. -/
def cfgA : Config := ⟨[], none⟩

/-- One project, no default. -/
def cfgB : Config := ⟨[("p1", ⟨"P1", "id1", "t1"⟩)], none⟩

/-- Two projects with `p2` as default. -/
def cfgC : Config := ⟨[("p1", ⟨"P1", "id1", "t1"⟩), ("p2", ⟨"P2", "id2", "t2"⟩)], some "p2"⟩

/-- Root components of the demonstration mirror. -/
def demoRoot : List String := ["overleaf_cache", "abc123"]

/-- A demonstration mirror tree with a `.git` directory. -/
def demoTree : List (List String) :=
  [[".git", "config"], ["main.tex"], ["chapters", "intro.tex"], ["refs.bib"]]

/-! Structural lemmas about the embedded matcher and scan. -/

/-- Boolean prefix test agrees with the prefix relation. -/
lemma isPrefixOf_eq {l1 l2 : List Char} : (l1.isPrefixOf l2) = true ↔ l1 <+: l2 :=
  List.isPrefixOf_iff_prefix

lemma dropWhile_head_false {α : Type} {p : α → Bool} {l : List α} {x : α} {xs : List α}
    (h : l.dropWhile p = x :: xs) : p x = false := by
  induction l with
  | nil => simp at h
  | cons a as ih =>
    by_cases hp : p a
    · rw [List.dropWhile_cons, if_pos hp] at h
      exact ih h
    · rw [List.dropWhile_cons, if_neg hp] at h
      cases h
      simpa using hp

lemma matchAt_sound {cs : List Char} {i : Nat} {m : SecMatch} (h : matchAt cs i = some m) :
    m.start = i ∧ m.stop = i + (headerChars m).length ∧ (headerChars m) <+: cs.drop i
      ∧ m.title ≠ [] ∧ i < cs.length := by
  unfold matchAt at h
  rcases hdrop : cs.drop i with _ | ⟨c, rest⟩ <;> rw [hdrop] at h
  · simp at h
  have hi : i < cs.length := by
    by_contra hle
    rw [List.drop_eq_nil_of_le (by omega)] at hdrop
    cases hdrop
  simp only at h
  split at h
  case _ hc =>
    rcases hfind : SECTION_KEYWORDS.find? (fun w => w.toList.isPrefixOf rest) with _ | w <;>
      rw [hfind] at h
    · cases h
    simp only at h
    have hwpre : w.toList <+: rest := by
      have hp := List.find?_some hfind
      exact isPrefixOf_eq.mp hp
    have hrest : rest = w.toList ++ rest.drop w.length :=
      (List.prefix_iff_eq_append.mp hwpre).symm
    rcases hak : rest.drop w.length with _ | ⟨d, tl0⟩ <;> rw [hak] at h
    · cases h
    simp only at h
    by_cases hd : d = star
    · -- starred variant
      rw [if_pos hd] at h
      rcases has : tl0 with _ | ⟨b, tl⟩ <;> rw [has] at h
      · cases h
      simp only at h
      split at h
      case _ hb =>
        split at h
        case _ => cases h
        case _ hne =>
          rw [Bool.or_eq_true, not_or] at hne
          obtain ⟨hte, hre⟩ := hne
          have htne : tl.takeWhile (fun ch => ch ≠ rbrace) ≠ [] := by
            simpa [List.isEmpty_iff] using hte
          rcases hr2 : tl.dropWhile (fun ch => ch ≠ rbrace) with _ | ⟨r0, rest3⟩
          · rw [hr2] at hre; simp at hre
          have hr0 : r0 = rbrace := by
            have hh := dropWhile_head_false hr2
            simpa using hh
          cases h
          set T := tl.takeWhile (fun ch => decide (ch ≠ rbrace)) with hT
          have htl : tl = T ++ rbrace :: rest3 := by
            rw [hT]
            conv_lhs => rw [← List.takeWhile_append_dropWhile (fun ch => decide (ch ≠ rbrace)) tl]
            rw [hr2, hr0]
          refine ⟨rfl, ?_, ?_, htne, hi⟩
          · simp [headerChars, headerPat, hd]
            omega
          · rw [hc, hrest, hak, hd, has, hb, htl]
            refine ⟨rest3, ?_⟩
            simp [headerChars, headerPat]
      case _ => cases h
    · -- unstarred variant
      rw [if_neg hd] at h
      simp only at h
      split at h
      case _ hb =>
        split at h
        case _ => cases h
        case _ hne =>
          rw [Bool.or_eq_true, not_or] at hne
          obtain ⟨hte, hre⟩ := hne
          have htne : tl0.takeWhile (fun ch => ch ≠ rbrace) ≠ [] := by
            simpa [List.isEmpty_iff] using hte
          rcases hr2 : tl0.dropWhile (fun ch => ch ≠ rbrace) with _ | ⟨r0, rest3⟩
          · rw [hr2] at hre; simp at hre
          have hr0 : r0 = rbrace := by
            have hh := dropWhile_head_false hr2
            simpa using hh
          cases h
          set T := tl0.takeWhile (fun ch => decide (ch ≠ rbrace)) with hT
          have htl : tl0 = T ++ rbrace :: rest3 := by
            rw [hT]
            conv_lhs => rw [← List.takeWhile_append_dropWhile (fun ch => decide (ch ≠ rbrace)) tl0]
            rw [hr2, hr0]
          refine ⟨rfl, ?_, ?_, htne, hi⟩
          · simp [headerChars, headerPat, hd]
            omega
          · rw [hc, hrest, hak, hb, htl]
            refine ⟨rest3, ?_⟩
            simp [headerChars, headerPat, hd]
            decide
      case _ => cases h
  case _ => cases h

/-- A match is nonempty and ends inside the document. -/
lemma matchAt_bounds {cs : List Char} {i : Nat} {m : SecMatch} (h : matchAt cs i = some m) :
    m.start < m.stop ∧ m.stop ≤ cs.length := by
  obtain ⟨hs, hst, hpre, -, hi⟩ := matchAt_sound h
  constructor
  · rw [hs, hst]
    have hpos : 0 < (headerChars m).length := by
      simp [headerChars, headerPat]
    omega
  · have hlen := hpre.length_le
    rw [List.length_drop] at hlen
    omega

/-- Two lists extending a common stem with different heads cannot be
prefix-related. -/
lemma prefix_append_cons {α : Type} {A B C : List α} {x y : α}
    (h : (A ++ x :: B) <+: (A ++ y :: C)) : x = y := by
  induction A with
  | nil => exact (List.cons_prefix_cons.mp h).1
  | cons a as ih => exact ih (List.cons_prefix_cons.mp h).2

/-- The header re-match pattern of `update_section` built from a match's
own kind and title matches at the match's start, ending at its stop. -/
lemma matchAt_headerMatch {cs : List Char} {i : Nat} {m : SecMatch}
    (h : matchAt cs i = some m) : matchHeaderAt cs m.kind m.title i = some m.stop := by
  obtain ⟨hs, hst, hpre, -, -⟩ := matchAt_sound h
  have hchars : headerChars m = headerPat m.kind m.title m.starred := rfl
  unfold matchHeaderAt
  cases hstar : m.starred
  · have hpre2 : headerPat m.kind m.title false <+: cs.drop i := by
      rw [← hstar, ← hchars]
      exact hpre
    have hfalse : ¬ ((headerPat m.kind m.title true).isPrefixOf (cs.drop i) = true) := by
      intro htrue
      obtain ⟨t, ht⟩ := hpre2
      have hp := isPrefixOf_eq.mp htrue
      rw [← ht] at hp
      have hp2 : (bslash :: m.kind.toList) ++ star :: (lbrace :: (m.title ++ [rbrace]))
          <+: (bslash :: m.kind.toList) ++ lbrace :: ((m.title ++ [rbrace]) ++ t) := by
        simpa [headerPat] using hp
      have heq := prefix_append_cons hp2
      exact absurd heq (by decide)
    rw [if_neg hfalse, if_pos (isPrefixOf_eq.mpr hpre2)]
    have hlen : (headerPat m.kind m.title false).length = (headerChars m).length := by
      rw [hchars, hstar]
    rw [hlen, ← hst]
  · have hpre2 : headerPat m.kind m.title true <+: cs.drop i := by
      rw [← hstar, ← hchars]
      exact hpre
    rw [if_pos (isPrefixOf_eq.mpr hpre2)]
    have hlen : (headerPat m.kind m.title true).length = (headerChars m).length := by
      rw [hchars, hstar]
    rw [hlen, ← hst]

/-- `re.search` finds a match no later than any position where the
pattern matches. -/
lemma headerSearchAux_le (cs : List Char) (kind : String) (title : List Char) :
    ∀ fuel i j e, i ≤ j → j < i + fuel → matchHeaderAt cs kind title j = some e →
    ∃ p e2, headerSearchAux cs kind title fuel i = some (p, e2) ∧ p ≤ j := by
  intro fuel
  induction fuel with
  | zero => intro i j e h1 h2 _; omega
  | succ fuel ih =>
    intro i j e h1 h2 hm
    rcases hmi : matchHeaderAt cs kind title i with _ | e'
    · have hij : i ≠ j := by
        intro he
        rw [he, hm] at hmi
        cases hmi
      obtain ⟨p, e2, hp, hple⟩ := ih (i + 1) j e (by omega) (by omega) hm
      refine ⟨p, e2, ?_, hple⟩
      rw [headerSearchAux, hmi]
      exact hp
    · refine ⟨i, e', ?_, h1⟩
      rw [headerSearchAux, hmi]

/-- Every match emitted by the scan starting at `i` starts at or after
`i` and is a genuine match of the pattern at its own start. -/
lemma findIterAux_mem (cs : List Char) :
    ∀ fuel i m, m ∈ findIterAux cs fuel i → i ≤ m.start ∧ matchAt cs m.start = some m := by
  intro fuel
  induction fuel with
  | zero => intro i m hm; simp [findIterAux] at hm
  | succ fuel ih =>
    intro i m hm
    rw [findIterAux] at hm
    by_cases hi : i < cs.length
    · rw [if_pos hi] at hm
      rcases hm0 : matchAt cs i with _ | m0 <;> rw [hm0] at hm
      · obtain ⟨h1, h2⟩ := ih _ _ hm
        exact ⟨by omega, h2⟩
      · rcases List.mem_cons.mp hm with rfl | hm2
        · have hms := matchAt_sound hm0
          refine ⟨le_of_eq hms.1.symm, ?_⟩
          rw [hms.1]
          exact hm0
        · obtain ⟨h1, h2⟩ := ih _ _ hm2
          refine ⟨?_, h2⟩
          omega
    · rw [if_neg hi] at hm
      cases hm

/-- The scan's matches are non-overlapping and in document order. -/
lemma findIterAux_chain (cs : List Char) :
    ∀ fuel i, List.Chain' (fun a b => a.stop ≤ b.start) (findIterAux cs fuel i) := by
  intro fuel
  induction fuel with
  | zero => intro i; simp [findIterAux]
  | succ fuel ih =>
    intro i
    rw [findIterAux]
    by_cases hi : i < cs.length
    · rw [if_pos hi]
      rcases hm0 : matchAt cs i with _ | m0
      · exact ih _
      · rw [List.chain'_cons']
        refine ⟨?_, ih _⟩
        intro y hy
        have hmem : y ∈ findIterAux cs fuel (max m0.stop (i + 1)) := List.mem_of_mem_head? hy
        have hst := (findIterAux_mem cs fuel _ y hmem).1
        omega
    · rw [if_neg hi]
      simp


/-- Every section produced by `buildSections` corresponds to a genuine
match at its `start_pos`, with its `end_pos` at or after the match's end
and inside the document. -/
lemma buildSections_corr (cs : List Char) :
    ∀ ms : List SecMatch, (∀ m ∈ ms, matchAt cs m.start = some m) →
    List.Chain' (fun a b => a.stop ≤ b.start) ms →
    ∀ s ∈ buildSections cs ms,
      ∃ m, matchAt cs s.start_pos = some m ∧ m.start = s.start_pos ∧ m.kind = s.type ∧
        m.title = s.title ∧ m.stop ≤ s.end_pos ∧ s.end_pos ≤ cs.length := by
  intro ms
  induction ms with
  | nil => intro _ _ s hs; simp [buildSections] at hs
  | cons m rest ih =>
    intro hsound hch s hs
    rw [buildSections] at hs
    rcases List.mem_cons.mp hs with rfl | hs2
    · have hm : matchAt cs m.start = some m := hsound m (by simp)
      refine ⟨m, hm, rfl, rfl, rfl, ?_, ?_⟩
      · cases rest with
        | nil => simpa [sectionEnd] using (matchAt_bounds hm).2
        | cons m2 r2 =>
          have hrel := (List.chain'_cons.mp hch).1
          simpa [sectionEnd] using hrel
      · cases rest with
        | nil => simp [sectionEnd]
        | cons m2 r2 =>
          have hm2 : matchAt cs m2.start = some m2 := hsound m2 (by simp)
          have hb2 := matchAt_bounds hm2
          simp only [sectionEnd]
          omega
    · exact ih (fun m2 hm2 => hsound m2 (by simp [hm2])) hch.tail s hs2

/-- Adjacent sections abut: each `end_pos` is the next `start_pos`. -/
lemma buildSections_chainEq (cs : List Char) :
    ∀ ms, List.Chain' (fun s t => s.end_pos = t.start_pos) (buildSections cs ms) := by
  intro ms
  induction ms with
  | nil => simp [buildSections]
  | cons m rest ih =>
    rw [buildSections, List.chain'_cons']
    refine ⟨?_, ih⟩
    intro y hy
    cases rest with
    | nil => simp [buildSections] at hy
    | cons m2 r2 =>
      rw [buildSections] at hy
      simp only [List.head?_cons, Option.mem_def, Option.some.injEq] at hy
      rw [← hy]
      simp [sectionEnd]

/-- Section start offsets are non-decreasing. -/
lemma buildSections_chainLe (cs : List Char) :
    ∀ ms, (∀ m ∈ ms, matchAt cs m.start = some m) →
    List.Chain' (fun a b => a.stop ≤ b.start) ms →
    List.Chain' (fun s t => s.start_pos ≤ t.start_pos) (buildSections cs ms) := by
  intro ms
  induction ms with
  | nil => intro _ _; simp [buildSections]
  | cons m rest ih =>
    intro hsound hch
    rw [buildSections, List.chain'_cons']
    refine ⟨?_, ih (fun m2 hm2 => hsound m2 (by simp [hm2])) hch.tail⟩
    intro y hy
    cases rest with
    | nil => simp [buildSections] at hy
    | cons m2 r2 =>
      rw [buildSections] at hy
      simp only [List.head?_cons, Option.mem_def, Option.some.injEq] at hy
      rw [← hy]
      simp only
      have hm : matchAt cs m.start = some m := hsound m (by simp)
      have hb := matchAt_bounds hm
      have hrel := (List.chain'_cons.mp hch).1
      omega

/-- The last section always ends at the document's end. -/
lemma buildSections_last (cs : List Char) :
    ∀ ms s, (buildSections cs ms).getLast? = some s → s.end_pos = cs.length := by
  intro ms
  induction ms with
  | nil => intro s h; simp [buildSections] at h
  | cons m rest ih =>
    intro s h
    cases rest with
    | nil =>
      rw [buildSections, buildSections] at h
      simp only [List.getLast?_singleton, Option.some.injEq] at h
      rw [← h]
      simp [sectionEnd]
    | cons m2 r2 =>
      rw [buildSections] at h
      have hcons : buildSections cs (m2 :: r2) =
          ⟨m2.kind, m2.title, previewOf cs m2 (sectionEnd cs r2), m2.start, sectionEnd cs r2⟩
            :: buildSections cs r2 := by
        rw [buildSections]
      rw [hcons, List.getLast?_cons_cons, ← hcons] at h
      exact ih s h


/-- Every parsed section corresponds to a genuine match at its start. -/
lemma parse_sections_corr (cs : List Char) {s : Section} (hs : s ∈ parse_sections cs) :
    ∃ m, matchAt cs s.start_pos = some m ∧ m.start = s.start_pos ∧ m.kind = s.type ∧
      m.title = s.title ∧ m.stop ≤ s.end_pos ∧ s.end_pos ≤ cs.length := by
  have hsound : ∀ m ∈ findIter cs, matchAt cs m.start = some m :=
    fun m hm => (findIterAux_mem cs _ _ m hm).2
  have hch := findIterAux_chain cs (cs.length + 1) 0
  exact buildSections_corr cs (findIter cs) hsound hch s hs

/-- Python `s.strip()` removes exactly a whitespace prefix and a
whitespace suffix. -/
lemma pyStrip_decomp (cs : List Char) :
    ∃ l r, (∀ c ∈ l, isPySpace c = true) ∧ (∀ c ∈ r, isPySpace c = true)
      ∧ cs = l ++ (pyStrip cs ++ r) := by
  refine ⟨cs.takeWhile isPySpace, ((cs.dropWhile isPySpace).reverse.takeWhile isPySpace).reverse,
    ?_, ?_, ?_⟩
  · intro c hc
    exact List.mem_takeWhile_imp hc
  · intro c hc
    rw [List.mem_reverse] at hc
    exact List.mem_takeWhile_imp hc
  · conv_lhs => rw [← List.takeWhile_append_dropWhile isPySpace cs]
    congr 1
    rw [pyStrip, ← List.reverse_append, List.takeWhile_append_dropWhile, List.reverse_reverse]

/-- Splitting a list at two positions: `cs = cs[:a] + cs[a:b] + cs[b:]`. -/
lemma slice_recomp (cs : List Char) {a b : Nat} (hab : a ≤ b) :
    cs = cs.take a ++ (pySlice cs a b ++ cs.drop b) := by
  rw [pySlice]
  have h1 : cs.drop b = (cs.drop a).drop (b - a) := by
    rw [List.drop_drop]
    congr 1
    omega
  rw [h1, List.take_append_drop, List.take_append_drop]


/-! Demonstration documents for witnesses and counterexamples. -/

/-- Claim C2: `parse_sections` returns sections in document order whose
`[start_pos, end_pos)` ranges abut exactly: each `end_pos` equals the
next section's `start_pos`, the last `end_pos` is the document length,
every range is within the document with `start_pos ≤ end_pos`, and start
offsets are non-decreasing — so the ranges tile the suffix of the
document from the first section's start with no gaps or overlaps. -/
theorem claim_C2_coverage (cs : List Char) :
    List.Chain' (fun s t => s.end_pos = t.start_pos) (parse_sections cs)
    ∧ (∀ s ∈ parse_sections cs, s.start_pos ≤ s.end_pos ∧ s.end_pos ≤ cs.length)
    ∧ (∀ s, (parse_sections cs).getLast? = some s → s.end_pos = cs.length)
    ∧ List.Chain' (fun s t => s.start_pos ≤ t.start_pos) (parse_sections cs) := by
  have hsound : ∀ m ∈ findIter cs, matchAt cs m.start = some m :=
    fun m hm => (findIterAux_mem cs _ _ m hm).2
  have hch := findIterAux_chain cs (cs.length + 1) 0
  refine ⟨buildSections_chainEq cs _, ?_, fun s h => buildSections_last cs _ s h,
    buildSections_chainLe cs _ hsound hch⟩
  intro s hs
  obtain ⟨m, hm, hstart, -, -, hstop, hend⟩ := parse_sections_corr cs hs
  have hb := matchAt_bounds hm
  omega

/-- Witness: claim C2's invariant evaluated on the spec's scenario
document with its two concrete sections. -/
theorem claim_C2_coverage_witness :
    List.Chain' (fun s t => s.end_pos = t.start_pos) (parse_sections demoDoc)
    ∧ (demoSec0.start_pos ≤ demoSec0.end_pos ∧ demoSec0.end_pos ≤ demoDoc.length)
    ∧ demoSec1.end_pos = demoDoc.length :=
  ⟨(claim_C2_coverage demoDoc).1,
   (claim_C2_coverage demoDoc).2.1 demoSec0 (by decide),
   (claim_C2_coverage demoDoc).2.2.1 demoSec1 (by decide)⟩


/-- Claim C9 (amended): whenever the step-1 lookup of `update_section`
finds a section, the step-2 header re-match over the whole document
always succeeds — so the `Could not locate section header` branch is
unreachable and the rewrite always returns a document — but it matches at
the first occurrence of the kind/title pattern, which is at or before
(not necessarily at) the section's recorded start offset. -/
theorem claim_C9_rematch (cs : List Char) (title : String) (s : Section)
    (h : (parse_sections cs).find? (fun t => lowerList t.title = lowerList title.toList)
          = some s) :
    (∃ p e, headerSearch cs s.type s.title = some (p, e) ∧ p ≤ s.start_pos)
    ∧ ∀ nc : String, ∃ r, update_section_text cs title nc = Except.ok r := by
  have hmem := List.mem_of_find?_eq_some h
  obtain ⟨m, hm, hstart, hkind, htitle, hstop, hend⟩ := parse_sections_corr cs hmem
  have hh := matchAt_headerMatch hm
  rw [hkind, htitle] at hh
  have hb := matchAt_bounds hm
  obtain ⟨p, e2, hps, hple⟩ := headerSearchAux_le cs s.type s.title (cs.length + 1) 0
    s.start_pos m.stop (by omega) (by omega) hh
  have hps2 : headerSearch cs s.type s.title = some (p, e2) := hps
  refine ⟨⟨p, e2, hps2, hple⟩, ?_⟩
  intro nc
  refine ⟨cs.take e2 ++ '\n' :: (pyStrip nc.toList ++ '\n' :: cs.drop s.end_pos), ?_⟩
  rw [update_section_text, h]
  simp only
  rw [hps2]

/-- Witness: claim C9's amended statement on the scenario document. -/
theorem claim_C9_rematch_witness :
    (∃ p e, headerSearch demoDoc demoSec0.type demoSec0.title = some (p, e)
        ∧ p ≤ demoSec0.start_pos)
    ∧ (∃ r, update_section_text demoDoc "Intro" "Goodbye" = Except.ok r) :=
  ⟨(claim_C9_rematch demoDoc "Intro" demoSec0 (by decide)).1,
   (claim_C9_rematch demoDoc "Intro" demoSec0 (by decide)).2 "Goodbye"⟩

/-- Counterexample to claim C9 as stated: on `advDoc` the lookup for `A`
finds the section starting at offset 28 (whose header ends at 39), but
the whole-document re-match finds the pattern `\\section\x7bA\x7d` at offset 13
inside the first heading's title, ending at 24 — not at the section's
start and not at its header end. -/
theorem claim_C9_counterexample :
    (parse_sections advDoc).find? (fun t => lowerList t.title = lowerList "A".toList)
      = some advSection
    ∧ advSection.start_pos = 28
    ∧ headerSearch advDoc advSection.type advSection.title = some (13, 24)
    ∧ matchHeaderAt advDoc "section" "A".toList 28 = some 39
    ∧ (13 : Nat) ≠ 28
    ∧ (24 : Nat) ≠ 39 := by
  decide

/-- Claim C1 is violated by the code: on `advDoc`, updating section `A`
with `NEW` rewrites from offset 24 (the end of the re-match inside the
first heading's title), destroying bytes before the target's header-end
at offset 39 and producing a document different from
`text[0:39] + newline + NEW + newline + text[45:]` that the claim
prescribes. -/
theorem claim_C1_locality_violated :
    update_section_text advDoc "A" "NEW"
      = Except.ok ("\\paragraph\x7bB \\section\x7bA\x7d\nNEW\n".toList)
    ∧ ("\\paragraph\x7bB \\section\x7bA\x7d\nNEW\n".toList).take 39 ≠ advDoc.take 39
    ∧ "\\paragraph\x7bB \\section\x7bA\x7d\nNEW\n".toList
        ≠ advDoc.take 39 ++ '\n' :: (pyStrip "NEW".toList ++ '\n' :: advDoc.drop 45) := by
  decide


/-- Counterexample to claim C4 as stated: on the scenario document,
`get_section_by_title` returns the whole span including the heading
command, not the body from header-end (offset 15) to content-end. -/
theorem claim_C4_counterexample :
    get_section_by_title demoDoc "Intro".toList
      = some ("\\section\x7bIntro\x7d\nHello\n".toList)
    ∧ "\\section\x7bIntro\x7d\nHello\n".toList ≠ pySlice demoDoc 15 22 := by
  decide

/-- Claim C4 (amended): the lookup-by-title retrieval returns the raw
span `content[start_pos:end_pos]` — the heading command followed by the
section body — rather than the body alone. -/
theorem claim_C4_full_span (content : List Char) (title : List Char) (s : Section)
    (h : (parse_sections content).find? (fun t => lowerList t.title = lowerList title)
          = some s) :
    ∃ m, matchAt content s.start_pos = some m ∧ m.kind = s.type ∧ m.title = s.title
      ∧ get_section_by_title content title = some (pySlice content s.start_pos s.end_pos)
      ∧ pySlice content s.start_pos s.end_pos
          = headerChars m ++ pySlice content m.stop s.end_pos := by
  have hmem := List.mem_of_find?_eq_some h
  obtain ⟨m, hm, hstart, hkind, htitle, hstop, hend⟩ := parse_sections_corr content hmem
  refine ⟨m, hm, hkind, htitle, ?_, ?_⟩
  · rw [get_section_by_title, h]
  · obtain ⟨hs2, hst, hpre, -, -⟩ := matchAt_sound hm
    obtain ⟨t, ht⟩ := hpre
    have hdropstop : content.drop m.stop = t := by
      rw [hst, ← List.drop_drop, ← ht]
      exact List.drop_left _ _
    have hdecomp : content.drop s.start_pos = headerChars m ++ content.drop m.stop := by
      rw [hdropstop]
      exact ht.symm
    rw [pySlice, pySlice, hdecomp]
    have hlen : s.end_pos - s.start_pos = (headerChars m).length + (s.end_pos - m.stop) := by
      omega
    rw [hlen, List.take_append]

/-- Witness: claim C4's amended statement on the scenario document. -/
theorem claim_C4_full_span_witness :
    ∃ m, matchAt demoDoc demoSec0.start_pos = some m ∧ m.kind = demoSec0.type
      ∧ m.title = demoSec0.title
      ∧ get_section_by_title demoDoc "Intro".toList
          = some (pySlice demoDoc demoSec0.start_pos demoSec0.end_pos)
      ∧ pySlice demoDoc demoSec0.start_pos demoSec0.end_pos
          = headerChars m ++ pySlice demoDoc m.stop demoSec0.end_pos :=
  claim_C4_full_span demoDoc "Intro".toList demoSec0 (by decide)


/-- Counterexample to claim C5 as stated: writing back the string the
retrieval operation actually returns (the header-inclusive span)
duplicates the heading command — the result differs from the original by
a whole extra heading, not merely by normalized whitespace (it has three
backslashes where the original has two). -/
theorem claim_C5_counterexample :
    get_section_by_title demoDoc "Intro".toList
      = some ("\\section\x7bIntro\x7d\nHello\n".toList)
    ∧ update_section_text demoDoc "Intro" (String.mk ("\\section\x7bIntro\x7d\nHello\n".toList))
        = Except.ok
            ("\\section\x7bIntro\x7d\n\\section\x7bIntro\x7d\nHello\n\\section\x7bMethods\x7d\nWorld\n".toList)
    ∧ ("\\section\x7bIntro\x7d\n\\section\x7bIntro\x7d\nHello\n\\section\x7bMethods\x7d\nWorld\n".toList)
        ≠ demoDoc
    ∧ ("\\section\x7bIntro\x7d\n\\section\x7bIntro\x7d\nHello\n\\section\x7bMethods\x7d\nWorld\n".toList).count
        bslash = 3
    ∧ demoDoc.count bslash = 2 := by
  decide

/-- Claim C5 (amended): writing back the section *body* (the substring
from the match's end to `end_pos`, not the retrieval operation's
header-inclusive output) leaves the document byte-identical outside the
body, and replaces the body by its whitespace-stripped core framed by
single newlines — identity up to normalized whitespace around the body —
provided the header re-match ends at the target's own header end. -/
theorem claim_C5_roundtrip (content : List Char) (title : String) (s : Section)
    (m : SecMatch) (p : Nat)
    (h1 : (parse_sections content).find? (fun t => lowerList t.title = lowerList title.toList)
            = some s)
    (h2 : matchAt content s.start_pos = some m)
    (h3 : headerSearch content s.type s.title = some (p, m.stop)) :
    update_section_text content title (String.mk (pySlice content m.stop s.end_pos))
      = Except.ok (content.take m.stop
          ++ '\n' :: (pyStrip (pySlice content m.stop s.end_pos)
              ++ '\n' :: content.drop s.end_pos))
    ∧ ∃ l r, (∀ c ∈ l, isPySpace c = true) ∧ (∀ c ∈ r, isPySpace c = true)
        ∧ content = content.take m.stop
            ++ ((l ++ (pyStrip (pySlice content m.stop s.end_pos) ++ r))
                ++ content.drop s.end_pos) := by
  have hmem := List.mem_of_find?_eq_some h1
  obtain ⟨m2, hm2, hstart2, hkind2, htitle2, hstop2, hend2⟩ := parse_sections_corr content hmem
  have hm2m : m2 = m := Option.some.inj (hm2.symm.trans h2)
  rw [hm2m] at hstop2
  constructor
  · rw [update_section_text, h1]
    simp only
    rw [h3]
    rfl
  · obtain ⟨l, r, hl, hr, hdec⟩ := pyStrip_decomp (pySlice content m.stop s.end_pos)
    refine ⟨l, r, hl, hr, ?_⟩
    set S := pyStrip (pySlice content m.stop s.end_pos) with hS
    conv_lhs => rw [slice_recomp content hstop2]
    rw [hdec]


/-- Witness: claim C5's amended round trip on the scenario document —
reading the body of `Intro` and writing it back reproduces the document. -/
theorem claim_C5_roundtrip_witness :
    update_section_text demoDoc "Intro" (String.mk (pySlice demoDoc demoM0.stop demoSec0.end_pos))
      = Except.ok (demoDoc.take demoM0.stop
          ++ '\n' :: (pyStrip (pySlice demoDoc demoM0.stop demoSec0.end_pos)
              ++ '\n' :: demoDoc.drop demoSec0.end_pos))
    ∧ ∃ l r, (∀ c ∈ l, isPySpace c = true) ∧ (∀ c ∈ r, isPySpace c = true)
        ∧ demoDoc = demoDoc.take demoM0.stop
            ++ ((l ++ (pyStrip (pySlice demoDoc demoM0.stop demoSec0.end_pos) ++ r))
                ++ demoDoc.drop demoSec0.end_pos) :=
  claim_C5_roundtrip demoDoc "Intro" demoSec0 demoM0 0 (by decide) (by decide) (by decide)


/-- Folding the path renderer from any accumulator prepends it. -/
lemma renderPath_init (l : List String) :
    ∀ init : List Char, l.foldl (fun acc s => acc ++ '/' :: s.toList) init
      = init ++ renderPath l := by
  induction l with
  | nil => intro init; simp [renderPath]
  | cons s t ih =>
    intro init
    have hr : renderPath (s :: t) = '/' :: s.toList ++ renderPath t := by
      rw [renderPath, List.foldl_cons, List.nil_append]
      exact ih ('/' :: s.toList)
    rw [List.foldl_cons, ih, hr, List.append_assoc]

/-- Path rendering distributes over segment concatenation. -/
lemma renderPath_append (l1 l2 : List String) :
    renderPath (l1 ++ l2) = renderPath l1 ++ renderPath l2 := by
  rw [renderPath, List.foldl_append, renderPath_init]
  rfl

/-- A segment-wise ancestor renders to a string prefix. -/
lemma renderPath_ancestor {l1 l2 : List String} (h : l1 <+: l2) :
    (renderPath l1).isPrefixOf (renderPath l2) = true := by
  obtain ⟨t, ht⟩ := h
  apply isPrefixOf_eq.mpr
  rw [← ht, renderPath_append]
  exact ⟨renderPath t, rfl⟩

/-- Claim C3 (amended): `validate_path` accepts exactly the inputs whose
resolved joined path renders to a string with the resolved root's
rendering as prefix, returning that resolved path; in particular every
input resolving to a path with the root as segment-wise ancestor is
accepted with the exact resolved path.  (`..` segments are not rejected
as such, and the prefix test also admits sibling directories whose name
extends the root's — the spec's known weakness.) -/
theorem claim_C3_pathcheck (base : List String) (target : String) :
    (validate_path base target = some (resolveSegs (joinPath base target))
      ↔ (renderPath (resolveSegs base)).isPrefixOf
          (renderPath (resolveSegs (joinPath base target))) = true)
    ∧ (resolveSegs base <+: resolveSegs (joinPath base target) →
        validate_path base target = some (resolveSegs (joinPath base target)))
    ∧ (validate_path base target = none
      ↔ ¬ (renderPath (resolveSegs base)).isPrefixOf
          (renderPath (resolveSegs (joinPath base target))) = true) := by
  have hval : validate_path base target
      = if (renderPath (resolveSegs base)).isPrefixOf
            (renderPath (resolveSegs (joinPath base target))) = true
        then some (resolveSegs (joinPath base target)) else none := by
    rw [validate_path]
  by_cases hc : (renderPath (resolveSegs base)).isPrefixOf
      (renderPath (resolveSegs (joinPath base target))) = true
  · rw [hval, if_pos hc]
    refine ⟨Iff.intro (fun _ => hc) (fun _ => rfl), fun _ => rfl,
      Iff.intro (fun h => nomatch h) (fun hn => absurd hc hn)⟩
  · rw [hval, if_neg hc]
    refine ⟨Iff.intro (fun h => nomatch h) (fun hx => absurd hx hc),
      fun hseg => absurd (renderPath_ancestor hseg) hc,
      Iff.intro (fun _ => hc) (fun _ => rfl)⟩

/-- Witness: a plain relative path inside the root is accepted and the
exact resolved path is returned. -/
theorem claim_C3_pathcheck_witness :
    validate_path demoBase "main.tex" = some ["home", "u", "cache", "proj", "main.tex"] :=
  (claim_C3_pathcheck demoBase "main.tex").2.1 ⟨["main.tex"], by decide⟩

/-- Counterexample to claim C3 as stated: a `..`-containing input that
stays inside the root is accepted (not rejected), and a `..`-containing
input escaping to the sibling `proj-evil` is also accepted by the
string-prefix check although the root is not an ancestor. -/
theorem claim_C3_counterexample :
    (pySplitSlash "sub/../main.tex").contains ".." = true
    ∧ validate_path demoBase "sub/../main.tex"
        = some ["home", "u", "cache", "proj", "main.tex"]
    ∧ (pySplitSlash "../proj-evil/x.tex").contains ".." = true
    ∧ validate_path ["a", "proj"] "../proj-evil/x.tex" = some ["a", "proj-evil", "x.tex"]
    ∧ (["a", "proj"].isPrefixOf ["a", "proj-evil", "x.tex"]) = false := by
  decide


/-- Claim C6: `create_file` on an existing target returns the conflict
message directing the caller to `edit_file`, leaves the files untouched
and produces no commit — the write and git steps are never reached. -/
theorem claim_C6_create_conflict (base : List String) (st : RepoState) (fp : String)
    (content : List Char) (cm : Option String) (push pushOk : Bool) (perr : String)
    (target : List String)
    (hv : validate_path base fp = some target)
    (hex : (lookupFile st.files target).isSome = true) :
    create_file base st fp content cm push pushOk perr
      = (st, ToolOutcome.ok ("Error: File \x27" ++ fp
          ++ "\x27 already exists. Use edit_file to modify it."))
    ∧ (create_file base st fp content cm push pushOk perr).1.files = st.files
    ∧ (create_file base st fp content cm push pushOk perr).1.commits = st.commits := by
  have h : create_file base st fp content cm push pushOk perr
      = (st, ToolOutcome.ok ("Error: File \x27" ++ fp
          ++ "\x27 already exists. Use edit_file to modify it.")) := by
    rw [create_file, hv]
    simp only [hex, if_true]
  exact ⟨h, by rw [h], by rw [h]⟩

/-- Witness: claim C6 on a concrete state where `main.tex` exists. -/
theorem claim_C6_create_conflict_witness :
    create_file demoBase demoState "main.tex" "x".toList none true true "boom"
      = (demoState, ToolOutcome.ok
          "Error: File \x27main.tex\x27 already exists. Use edit_file to modify it.")
    ∧ (create_file demoBase demoState "main.tex" "x".toList none true true "boom").1.files
        = demoState.files
    ∧ (create_file demoBase demoState "main.tex" "x".toList none true true "boom").1.commits
        = demoState.commits :=
  claim_C6_create_conflict demoBase demoState "main.tex" "x".toList none true true "boom"
    ["home", "u", "cache", "proj", "main.tex"] (by decide) (by decide)

/-- Claim C7 (amended): for each mutating operation invoked with push
enabled, when the push step fails after the local commit, the commit is
in the resulting state (it remains local, nothing is rolled back), but
`call_tool` reports `"Error: <push error>"` — a generic failure message,
not a succeeded-locally-but-unpushed report. -/
theorem claim_C7_push_failure (base : List String) (st : RepoState) (fp : String)
    (c : List Char) (cm : Option String) (perr : String) (target : List String)
    (stitle nc : String) (doc nd : List Char) :
    (validate_path base fp = some target → lookupFile st.files target = none →
      create_file base st fp c cm true false perr
        = (⟨setFile st.files target c, st.commits ++ [⟨cm.getD ("Add " ++ fp), [fp]⟩]⟩,
            ToolOutcome.raised perr)
      ∧ (call_tool (create_file base st fp c cm true false perr)).2 = "Error: " ++ perr)
    ∧ (validate_path base fp = some target → (lookupFile st.files target).isSome = true →
      edit_file base st fp c cm true false perr
        = (⟨setFile st.files target c, st.commits ++ [⟨cm.getD ("Update " ++ fp), [fp]⟩]⟩,
            ToolOutcome.raised perr)
      ∧ (call_tool (edit_file base st fp c cm true false perr)).2 = "Error: " ++ perr)
    ∧ (validate_path base fp = some target → lookupFile st.files target = some doc →
        update_section_text doc stitle nc = Except.ok nd →
      update_section_tool base st fp stitle nc cm true false perr
        = (⟨setFile st.files target nd,
            st.commits ++ [⟨cm.getD ("Update section \x27" ++ stitle ++ "\x27"), [fp]⟩]⟩,
            ToolOutcome.raised perr)
      ∧ (call_tool (update_section_tool base st fp stitle nc cm true false perr)).2
          = "Error: " ++ perr)
    ∧ (validate_path base fp = some target → (lookupFile st.files target).isSome = true →
      delete_file base st fp cm true false perr
        = (⟨removeFile st.files target, st.commits ++ [⟨cm.getD ("Delete " ++ fp), [fp]⟩]⟩,
            ToolOutcome.raised perr)
      ∧ (call_tool (delete_file base st fp cm true false perr)).2 = "Error: " ++ perr) := by
  refine ⟨?_, ?_, ?_, ?_⟩
  · intro hv hmiss
    have h : create_file base st fp c cm true false perr
        = (⟨setFile st.files target c, st.commits ++ [⟨cm.getD ("Add " ++ fp), [fp]⟩]⟩,
            ToolOutcome.raised perr) := by
      rw [create_file, hv]
      simp only [hmiss, Option.isSome_none, Bool.false_eq_true, if_false, if_true]
    exact ⟨h, by rw [h]; rfl⟩
  · intro hv hex
    have h : edit_file base st fp c cm true false perr
        = (⟨setFile st.files target c, st.commits ++ [⟨cm.getD ("Update " ++ fp), [fp]⟩]⟩,
            ToolOutcome.raised perr) := by
      rw [edit_file, hv]
      simp only [hex, if_true]
      rfl
    exact ⟨h, by rw [h]; rfl⟩
  · intro hv hdoc hupd
    have h : update_section_tool base st fp stitle nc cm true false perr
        = (⟨setFile st.files target nd,
            st.commits ++ [⟨cm.getD ("Update section \x27" ++ stitle ++ "\x27"), [fp]⟩]⟩,
            ToolOutcome.raised perr) := by
      rw [update_section_tool, hv]
      simp only
      rw [hdoc]
      simp only
      rw [hupd]
      rfl
    exact ⟨h, by rw [h]; rfl⟩
  · intro hv hex
    have h : delete_file base st fp cm true false perr
        = (⟨removeFile st.files target, st.commits ++ [⟨cm.getD ("Delete " ++ fp), [fp]⟩]⟩,
            ToolOutcome.raised perr) := by
      rw [delete_file, hv]
      simp only [hex, if_true]
      rfl
    exact ⟨h, by rw [h]; rfl⟩


/-- Counterexample to claim C7 as stated: a failing push after the local
commit surfaces to the caller as a generic `Error: ...` message — the
operation reads as failed — even though the commit is retained; the
`(not pushed)` success report is never produced on a push failure. -/
theorem claim_C7_counterexample :
    call_tool (edit_file demoBase demoState "main.tex" "x".toList none true false "push rejected")
      = (⟨[(demoTarget, "x".toList)], [⟨"Update main.tex", ["main.tex"]⟩]⟩,
          "Error: push rejected")
    ∧ ("Error: push rejected"
        ≠ "Updated \x27main.tex\x27 (not pushed). Run sync_project or use push=true to push changes.")
    ∧ "Error: ".toList.isPrefixOf "Error: push rejected".toList = true := by
  decide

/-- Witness: claim C7's amended statement for all four mutating
operations at concrete states with a failing push. -/
theorem claim_C7_push_failure_witness :
    (create_file demoBase ⟨[], []⟩ "main.tex" "x".toList none true false "push rejected"
        = (⟨[(demoTarget, "x".toList)], [⟨"Add main.tex", ["main.tex"]⟩]⟩,
            ToolOutcome.raised "push rejected")
      ∧ (call_tool (create_file demoBase ⟨[], []⟩ "main.tex" "x".toList none true false
            "push rejected")).2 = "Error: push rejected")
    ∧ (edit_file demoBase demoState "main.tex" "x".toList none true false "push rejected"
        = (⟨[(demoTarget, "x".toList)], [⟨"Update main.tex", ["main.tex"]⟩]⟩,
            ToolOutcome.raised "push rejected")
      ∧ (call_tool (edit_file demoBase demoState "main.tex" "x".toList none true false
            "push rejected")).2 = "Error: push rejected")
    ∧ (update_section_tool demoBase texState "main.tex" "Intro" "Goodbye" none true false
          "push rejected"
        = (⟨[(demoTarget, updatedDemo)], [⟨"Update section \x27Intro\x27", ["main.tex"]⟩]⟩,
            ToolOutcome.raised "push rejected")
      ∧ (call_tool (update_section_tool demoBase texState "main.tex" "Intro" "Goodbye" none
            true false "push rejected")).2 = "Error: push rejected")
    ∧ (delete_file demoBase demoState "main.tex" none true false "push rejected"
        = (⟨[], [⟨"Delete main.tex", ["main.tex"]⟩]⟩, ToolOutcome.raised "push rejected")
      ∧ (call_tool (delete_file demoBase demoState "main.tex" none true false
            "push rejected")).2 = "Error: push rejected") :=
  ⟨(claim_C7_push_failure demoBase ⟨[], []⟩ "main.tex" "x".toList none "push rejected"
      demoTarget "" "" [] []).1 (by decide) (by decide),
   (claim_C7_push_failure demoBase demoState "main.tex" "x".toList none "push rejected"
      demoTarget "" "" [] []).2.1 (by decide) (by decide),
   (claim_C7_push_failure demoBase texState "main.tex" [] none "push rejected"
      demoTarget "Intro" "Goodbye" demoDoc updatedDemo).2.2.1 (by decide) (by decide) (by decide),
   (claim_C7_push_failure demoBase demoState "main.tex" "x".toList none "push rejected"
      demoTarget "" "" [] []).2.2.2 (by decide) (by decide)⟩


/-- Claim C8: `get_project_config` fails with the unconfigured message
when no projects exist; fails listing the available names when a
supplied name is not a configured key; returns the configured default
project when the name is omitted; and, with no default configured,
returns the sole configured project. -/
theorem claim_C8_project_lookup (config : Config) (pn : Option String) :
    (config.projects = [] → get_project_config config pn = Except.error noProjectsMsg)
    ∧ (∀ n, pn = some n → config.projects ≠ [] →
        config.projects.find? (fun q => q.1 = n) = none →
        get_project_config config pn
          = Except.error ("Project \x27" ++ n ++ "\x27 not found. Available: "
              ++ String.intercalate ", " (config.projects.map (fun q => q.1))))
    ∧ (∀ d q, pn = none → config.default_project = some d → d ≠ "" →
        config.projects.find? (fun q2 => q2.1 = d) = some q →
        get_project_config config pn = Except.ok q.2)
    ∧ (∀ k pc, pn = none → config.default_project = none → config.projects = [(k, pc)] →
        get_project_config config pn = Except.ok pc) := by
  refine ⟨?_, ?_, ?_, ?_⟩
  · intro hnil
    rw [get_project_config, hnil]
  · intro n hpn hne hfind
    rcases hp : config.projects with _ | ⟨p0, ps⟩
    · exact absurd hp hne
    rw [hp] at hfind
    rw [get_project_config, hp]
    simp only [hpn]
    rw [hfind]
  · intro d q hpn hdef hd hfind
    rcases hp : config.projects with _ | ⟨p0, ps⟩
    · rw [hp] at hfind
      simp at hfind
    rw [hp] at hfind
    rw [get_project_config, hp]
    simp only [hpn, hdef, if_neg hd]
    rw [hfind]
  · intro k pc hpn hdef hproj
    rw [get_project_config, hproj]
    simp only [hpn, hdef]
    simp [List.find?]

/-- Witness: claim C8's four cases on concrete configurations. -/
theorem claim_C8_project_lookup_witness :
    get_project_config cfgA none = Except.error noProjectsMsg
    ∧ get_project_config cfgB (some "zz")
        = Except.error ("Project \x27zz\x27 not found. Available: "
            ++ String.intercalate ", " (cfgB.projects.map (fun q => q.1)))
    ∧ get_project_config cfgC none = Except.ok ⟨"P2", "id2", "t2"⟩
    ∧ get_project_config cfgB none = Except.ok ⟨"P1", "id1", "t1"⟩ :=
  ⟨(claim_C8_project_lookup cfgA none).1 rfl,
   (claim_C8_project_lookup cfgB (some "zz")).2.1 "zz" rfl (by decide) (by decide),
   (claim_C8_project_lookup cfgC none).2.2.1 "p2" ("p2", ⟨"P2", "id2", "t2"⟩) rfl rfl
     (by decide) (by decide),
   (claim_C8_project_lookup cfgB none).2.2.2 "p1" ⟨"P1", "id1", "t1"⟩ rfl rfl rfl⟩


/-- Claim C10: `list_files` lists only files with no dot-initial
relative component (in particular nothing under `.git`); with a
non-empty extension filter its output is exactly the renderings of the
non-hidden files whose suffix equals the filter; and the output is
sorted lexicographically.  (The root's own components are assumed
dot-free; the code checks the full path's components.) -/
theorem claim_C10_list_files (rootParts : List String) (tree : List (List String))
    (extension : String) (hroot : ∀ p ∈ rootParts, pyStartsWith p "." = false) :
    (∀ q ∈ list_files rootParts tree extension,
      ∃ rel, rel ∈ tree ∧ q = renderRel rel ∧ hasHiddenPart rel = false)
    ∧ (extension ≠ "" → ∀ q, (q ∈ list_files rootParts tree extension ↔
        ∃ rel, rel ∈ tree ∧ q = renderRel rel ∧ hasHiddenPart rel = false
          ∧ String.mk (pySuffix (lastComponent rel).toList) = extension))
    ∧ List.Sorted (fun a b => a ≤ b) (list_files rootParts tree extension) := by
  have hroot2 : hasHiddenPart rootParts = false := by
    rw [hasHiddenPart, List.any_eq_false]
    intro p hp
    simp [hroot p hp]
  have hhid : ∀ rel, hasHiddenPart (rootParts ++ rel) = hasHiddenPart rel := by
    intro rel
    have : (rootParts ++ rel).any (fun p => pyStartsWith p ".")
        = (rootParts.any (fun p => pyStartsWith p ".") || rel.any (fun p => pyStartsWith p ".")) :=
      List.any_append
    rw [hasHiddenPart, this, ← hasHiddenPart, ← hasHiddenPart, hroot2, Bool.false_or]
  have hmem : ∀ q, q ∈ list_files rootParts tree extension ↔
      ∃ rel, rel ∈ tree ∧ (!(hasHiddenPart (rootParts ++ rel))
          && (extension == "" || String.mk (pySuffix (lastComponent rel).toList) == extension))
            = true
        ∧ renderRel rel = q := by
    intro q
    rw [list_files, (List.perm_insertionSort _ _).mem_iff, List.mem_map]
    constructor
    · rintro ⟨rel, hrel, hq⟩
      have hf := List.mem_filter.mp hrel
      exact ⟨rel, hf.1, hf.2, hq⟩
    · rintro ⟨rel, h1, h2, h3⟩
      exact ⟨rel, List.mem_filter.mpr ⟨h1, h2⟩, h3⟩
  refine ⟨?_, ?_, ?_⟩
  · intro q hq
    obtain ⟨rel, hrelt, hcond, hq2⟩ := (hmem q).mp hq
    rw [Bool.and_eq_true, Bool.not_eq_true', hhid] at hcond
    exact ⟨rel, hrelt, hq2.symm, hcond.1⟩
  · intro hext q
    rw [hmem q]
    constructor
    · rintro ⟨rel, h1, hcond, h3⟩
      rw [Bool.and_eq_true, Bool.not_eq_true', hhid] at hcond
      obtain ⟨hh, hor⟩ := hcond
      have hextf : (extension == "") = false := by
        rw [beq_eq_false_iff_ne]
        exact hext
      rw [hextf, Bool.false_or, beq_iff_eq] at hor
      exact ⟨rel, h1, h3.symm, hh, hor⟩
    · rintro ⟨rel, h1, h2, h3, h4⟩
      refine ⟨rel, h1, ?_, h2.symm⟩
      rw [Bool.and_eq_true, Bool.not_eq_true', hhid]
      refine ⟨h3, ?_⟩
      rw [h4]
      simp
  · haveI ht1 : IsTotal String (fun a b => a ≤ b) := ⟨le_total⟩
    haveI ht2 : IsTrans String (fun a b => a ≤ b) := ⟨fun a b c => le_trans⟩
    exact List.sorted_insertionSort _ _

/-- Witness: claim C10's exactness and sortedness on a concrete tree
with a `.git` entry and a `.tex` filter. -/
theorem claim_C10_list_files_witness :
    ("chapters/intro.tex" ∈ list_files demoRoot demoTree ".tex" ↔
      ∃ rel, rel ∈ demoTree ∧ "chapters/intro.tex" = renderRel rel
        ∧ hasHiddenPart rel = false
        ∧ String.mk (pySuffix (lastComponent rel).toList) = ".tex")
    ∧ List.Sorted (fun a b => a ≤ b) (list_files demoRoot demoTree ".tex") :=
  ⟨(claim_C10_list_files demoRoot demoTree ".tex" (by decide)).2.1 (by decide)
      "chapters/intro.tex",
   (claim_C10_list_files demoRoot demoTree ".tex" (by decide)).2.2⟩

end OverleafMCP
